import Mathlib

/-!
Verification of the request/response translation and streaming-aggregation
layer of the Azure AI Foundry plugin (`azureaifoundry_plugin.go`).

The Go code is shallowly embedded: each relevant Go function becomes a Lean
function over explicit data.  The JSON encoder (`json.Marshal`) and decoder
(`json.Unmarshal`), the base64 decoder and the structured-value space
(`map[string]interface{}` / `interface{}`) live in the Go standard library,
outside this repository; they are abstracted as parameters
(`enc : V → Option String`, `dec : String → Option V`,
`b64dec : String → Option (List Nat)`) over an arbitrary value type `V`,
while all control flow around them is translated literally from the source.
-/

namespace Azureaifoundry

/-! ## String helpers: Go `strings.Contains` / `strings.Index` -/

/-- Whether `pat` is an initial segment of `s` (helper for substring search). -/
def listStartsWith : List Char → List Char → Bool
  | _, [] => true
  | [], _ :: _ => false
  | a :: as, b :: bs => a == b && listStartsWith as bs

/-- Whether `pat` occurs as a contiguous run inside `s`. -/
def listHasSub : List Char → List Char → Bool
  | [], pat => listStartsWith [] pat
  | c :: tail, pat => listStartsWith (c :: tail) pat || listHasSub tail pat

/-- Go `strings.Contains s pat`. -/
def strContains (s pat : String) : Bool :=
  listHasSub s.toList pat.toList

/-- Go `strings.Index s pat` followed by taking the suffix after the match:
returns the characters after the first occurrence of `pat`, or `none`
when `pat` does not occur (index `-1`). -/
def dropAfterSub (pat : List Char) : List Char → Option (List Char)
  | [] => if listStartsWith [] pat then some (([] : List Char).drop pat.length) else none
  | c :: tail =>
    if listStartsWith (c :: tail) pat then some ((c :: tail).drop pat.length)
    else dropAfterSub pat tail

/-! ## Data model: Genkit messages, parts and the untyped config bag -/

/-- Genkit `ai.ToolRequest`: a tool name and an arbitrary structured input
value (`interface{}`), abstracted as `V`. -/
structure ToolRequest (V : Type) where
  name : String
  input : V
deriving DecidableEq, Repr

/-- Genkit `ai.ToolResponse`: a tool name and an arbitrary structured output
value. -/
structure ToolResponse (V : Type) where
  name : String
  output : V
deriving DecidableEq, Repr

/-- Genkit `ai.Part`, the tagged union of content-part kinds used by the
plugin (`IsText`, `IsMedia`, `IsToolRequest`, `IsToolResponse`).  Text and
media parts carry their payload in the `Text` field. -/
inductive Part (V : Type)
  | text (s : String)
  | media (s : String)
  | toolRequest (tr : ToolRequest V)
  | toolResponse (tr : ToolResponse V)
deriving DecidableEq, Repr

/-- Go `part.Text`: set for text and media parts, empty otherwise. -/
def Part.textStr : Part V → String
  | .text s => s
  | .media s => s
  | _ => ""

/-- Go `part.IsText()`. -/
def Part.isText : Part V → Bool
  | .text _ => true
  | _ => false

/-- Go `part.IsMedia()`. -/
def Part.isMedia : Part V → Bool
  | .media _ => true
  | _ => false

/-- Genkit message roles. -/
inductive Role
  | system
  | user
  | model
  | tool
deriving DecidableEq, Repr

/-- Genkit `ai.Message`: a role and an ordered list of parts. -/
structure Message (V : Type) where
  role : Role
  content : List (Part V)
deriving DecidableEq, Repr

/-- A dynamically-typed Go value as it appears in the untyped config bag
(`map[string]interface{}`); the constructors model the run-time types the
plugin's type assertions test for. -/
inductive GoVal
  | vint (n : Int)
  | vstr (s : String)
  | vfloat (q : ℚ)
  | vbool (b : Bool)
  | vother
deriving DecidableEq, Repr

/-- The untyped config bag, a Go map from string keys to dynamic values
(keys unique; `List.lookup` retrieves a key's value). -/
abbrev ConfigBag := List (String × GoVal)

/-! ## Vendor wire shapes (the OpenAI SDK structs the plugin populates) -/

/-- A fragment of an array-of-parts user message: text or image-URL. -/
inductive OAContentPart
  | text (s : String)
  | imageURL (u : String)
deriving DecidableEq, Repr

/-- A function-style tool call as sent to / received from the vendor:
call id, function name, and the JSON-encoded arguments string. -/
structure OAToolCall where
  id : String
  name : String
  arguments : String
deriving DecidableEq, Repr

/-- A vendor chat message produced by the translator
(`openai.ChatCompletionMessageParamUnion`). -/
inductive OAMessage
  | system (content : String)
  | userString (content : String)
  | userParts (parts : List OAContentPart)
  | assistant (content : String) (toolCalls : List OAToolCall)
  | tool (content : String) (toolCallID : String)
deriving DecidableEq, Repr

/-! ## Message translator (`hasMultimodalContent`, `convertMessagesToOpenAI`) -/

/-- Go `hasMultimodalContent`: the message has a media part, or it has a
text part and more than one part in total. -/
def hasMultimodalContent (msg : Message V) : Bool :=
  msg.content.any Part.isMedia ||
    (msg.content.any Part.isText && decide (1 < msg.content.length))

/-- `msg.Content[0].Text` (the content list is known non-empty at use sites;
on an empty list this yields the empty string). -/
def firstPartText : List (Part V) → String
  | [] => ""
  | p :: _ => p.textStr

/-- The array-of-parts content of a multimodal user message: one fragment
per text part (text) or media part (image URL); other parts are skipped. -/
def userContentParts (parts : List (Part V)) : List OAContentPart :=
  parts.filterMap fun p =>
    match p with
    | .text s => some (OAContentPart.text s)
    | .media s => some (OAContentPart.imageURL s)
    | _ => none

/-- The concatenation of all text parts of a model-role message
(`textContent += part.Text`). -/
def modelTextContent (parts : List (Part V)) : String :=
  parts.foldl (fun acc p => if p.isText then acc ++ p.textStr else acc) ""

/-- The tool-call entries of a model-role message: one per tool-request part
whose input JSON-encodes successfully (`json.Marshal` failure skips the
entry), with the synthesized id `call_<name>`. -/
def assistantToolCalls (enc : V → Option String) (parts : List (Part V)) :
    List OAToolCall :=
  parts.filterMap fun p =>
    match p with
    | .toolRequest tr =>
      match enc tr.input with
      | some s => some ⟨"call_" ++ tr.name, tr.name, s⟩
      | none => none
    | _ => none

/-- The vendor messages emitted for a tool-role message: one tool-result
message per tool-response part whose output JSON-encodes successfully
(encode failure skips that entry). -/
def toolMessages (enc : V → Option String) (parts : List (Part V)) :
    List OAMessage :=
  parts.filterMap fun p =>
    match p with
    | .toolResponse tr =>
      match enc tr.output with
      | some s => some (OAMessage.tool s ("call_" ++ tr.name))
      | none => none
    | _ => none

/-- The vendor messages one Genkit message contributes
(one iteration of the loop in `convertMessagesToOpenAI`). -/
def convertOneMessage (enc : V → Option String) (msg : Message V) :
    List OAMessage :=
  if msg.content.isEmpty then []
  else
    match msg.role with
    | .system => [OAMessage.system (firstPartText msg.content)]
    | .user =>
      if hasMultimodalContent msg then
        [OAMessage.userParts (userContentParts msg.content)]
      else
        [OAMessage.userString (firstPartText msg.content)]
    | .model =>
      [OAMessage.assistant (modelTextContent msg.content)
        (assistantToolCalls enc msg.content)]
    | .tool => toolMessages enc msg.content

/-- Go `convertMessagesToOpenAI`: translate the message sequence, each
message contributing zero or more vendor messages in order. -/
def convertMessagesToOpenAI (enc : V → Option String)
    (messages : List (Message V)) : List OAMessage :=
  messages.flatMap (convertOneMessage enc)

/-! ## Model-name routing (`generateText`) -/

/-- The four request kinds `generateText` can dispatch to. -/
inductive Route
  | image
  | speech
  | transcription
  | chat
deriving DecidableEq, Repr

/-- The routing decision of `generateText`: lowercase the model name, then
test substrings in the source's order (image, speech, transcription, chat). -/
def generateTextRoute (modelName : String) : Route :=
  let modelLower := modelName.toLower
  if strContains modelLower "dall-e" || strContains modelLower "gpt-image" then
    Route.image
  else if strContains modelLower "tts-" || strContains modelLower "tts" then
    Route.speech
  else if strContains modelLower "whisper" || strContains modelLower "transcribe" then
    Route.transcription
  else
    Route.chat

/-- Modelled from the spec (refinement target for the routing claim): the
routing table as the spec words it — case-insensitive substring match, in
priority order, with a single `tts` test for speech. -/
def routeSpec (modelName : String) : Route :=
  let modelLower := modelName.toLower
  if strContains modelLower "dall-e" || strContains modelLower "gpt-image" then
    Route.image
  else if strContains modelLower "tts" then
    Route.speech
  else if strContains modelLower "whisper" || strContains modelLower "transcribe" then
    Route.transcription
  else
    Route.chat

/-! ## Finish-reason normalization (`convertFinishReason`) -/

/-- Genkit finish reasons used by the plugin. -/
inductive FinishReason
  | stop
  | length
  | blocked
  | other
  | unknown
deriving DecidableEq, Repr

/-- Go `convertFinishReason`: the vendor finish-reason string switch. -/
def convertFinishReason (reason : String) : FinishReason :=
  match reason with
  | "stop" => FinishReason.stop
  | "length" => FinishReason.length
  | "content_filter" => FinishReason.blocked
  | "tool_calls" => FinishReason.stop
  | "function_call" => FinishReason.stop
  | _ => FinishReason.other

/-! ## Non-streaming response converter (`convertResponse`) -/

/-- Vendor token-usage block (`resp.Usage`). -/
structure CompletionUsage where
  promptTokens : Int
  completionTokens : Int
  totalTokens : Int
deriving DecidableEq, Repr

/-- The message inside a vendor chat-completion choice: text content plus
the function-style view of each tool call (a non-function tool call appears
with an empty id, which the converter skips). -/
structure ChoiceMessage where
  content : String
  toolCalls : List OAToolCall
deriving DecidableEq, Repr

/-- One vendor chat-completion choice. -/
structure ChatChoice where
  message : ChoiceMessage
  finishReason : String
deriving DecidableEq, Repr

/-- A complete (non-streaming) vendor chat response. -/
structure ChatCompletion where
  choices : List ChatChoice
  usage : CompletionUsage
deriving DecidableEq, Repr

/-- Genkit `ai.GenerationUsage` (the three token counters). -/
structure GenerationUsage where
  inputTokens : Int
  outputTokens : Int
  totalTokens : Int
deriving DecidableEq, Repr

/-- The Genkit model response produced by the plugin: model-role message
content, a finish reason, and an optional usage block (`none` models the
Go `nil` pointer left unset). -/
structure ModelResponse (V : Type) where
  content : List (Part V)
  finishReason : FinishReason
  usage : Option GenerationUsage
deriving DecidableEq, Repr

/-- The tool-request parts of the non-streaming converter: for each function
tool call with a non-empty id, JSON-decode the arguments; a decode failure
skips that one tool call. -/
def responseToolParts (dec : String → Option V) (tcs : List OAToolCall) :
    List (Part V) :=
  tcs.filterMap fun tc =>
    if tc.id ≠ "" then
      match dec tc.arguments with
      | some v => some (Part.toolRequest ⟨tc.name, v⟩)
      | none => none
    else none

/-- Go `convertResponse`: zero choices yield an empty unknown-reason
response (usage left unset); otherwise choice zero is converted, and the
usage counters are filled only when the vendor's prompt-token count is
positive. -/
def convertResponse (dec : String → Option V) (resp : ChatCompletion) :
    ModelResponse V :=
  match resp.choices with
  | [] => { content := [], finishReason := FinishReason.unknown, usage := none }
  | choice :: _ =>
    let textParts : List (Part V) :=
      if choice.message.content ≠ "" then [Part.text choice.message.content] else []
    let toolParts := responseToolParts dec choice.message.toolCalls
    let u : GenerationUsage :=
      if resp.usage.promptTokens > 0 then
        ⟨resp.usage.promptTokens, resp.usage.completionTokens, resp.usage.totalTokens⟩
      else ⟨0, 0, 0⟩
    { content := textParts ++ toolParts,
      finishReason := convertFinishReason choice.finishReason,
      usage := some u }

/-- The three usage counters of a response, reading an unset usage block as
all-zero (a Go `nil` pointer carries zero counters). -/
def usageCounters (r : ModelResponse V) : Int × Int × Int :=
  match r.usage with
  | none => (0, 0, 0)
  | some u => (u.inputTokens, u.outputTokens, u.totalTokens)

/-! ## Streaming aggregator (`generateTextStream`, `convertToolCallsToParts`) -/

/-- One tool-call delta of a streamed chunk: the vendor-assigned positional
index, a call id, and the function-name / argument-string fragments
(`toolCallDelta.Function.Name` / `.Arguments`). -/
structure ToolCallDelta where
  index : Nat
  id : String
  name : String
  arguments : String
deriving DecidableEq, Repr

/-- Go `toolCallAccumulator`: call id, accumulated function name, and the
accumulated argument-string buffer. -/
structure ToolCallAccumulator where
  id : String
  name : String
  arguments : String
deriving DecidableEq, Repr

/-- The accumulator map `map[int]*toolCallAccumulator`, modelled as an
association list keyed by the positional index (entries in first-seen
order; `List.lookup` retrieves a key's accumulator). -/
abbrev AccMap := List (Nat × ToolCallAccumulator)

/-- Store a binding in the map: replace the existing entry for the key, or
append a new one. -/
def accStore : AccMap → Nat → ToolCallAccumulator → AccMap
  | [], i, a => [(i, a)]
  | (j, b) :: rest, i, a =>
    if j == i then (j, a) :: rest else (j, b) :: accStore rest i a

/-- Apply one delta's fragments to an existing accumulator: a non-empty
name overwrites the accumulated name; a non-empty argument fragment is
appended to the buffer. -/
def applyDeltaToAcc (acc : ToolCallAccumulator) (d : ToolCallDelta) :
    ToolCallAccumulator :=
  let acc1 := if d.name ≠ "" then { acc with name := d.name } else acc
  if d.arguments ≠ "" then { acc1 with arguments := acc1.arguments ++ d.arguments }
  else acc1

/-- Process one tool-call delta (one iteration of the inner loop of
`generateTextStream`): lazily create the accumulator for the delta's index
— capturing the call id at that moment — then apply the fragments. -/
def processToolCallDelta (m : AccMap) (d : ToolCallDelta) : AccMap :=
  let acc0 :=
    match List.lookup d.index m with
    | some a => a
    | none => { id := d.id, name := "", arguments := "" }
  accStore m d.index (applyDeltaToAcc acc0 d)

/-- Process the tool-call deltas of one chunk in arrival order. -/
def applyToolDeltas (m : AccMap) (ds : List ToolCallDelta) : AccMap :=
  ds.foldl processToolCallDelta m

/-- The accumulator map after a whole streamed delta sequence. -/
def streamAccs (ds : List ToolCallDelta) : AccMap :=
  applyToolDeltas [] ds

/-- The delta payload of a streamed chunk choice: the text fragment and the
tool-call deltas. -/
structure ChunkDelta where
  content : String
  toolCalls : List ToolCallDelta
deriving DecidableEq, Repr

/-- One choice of a streamed chunk; the per-choice finish reason reported by
the vendor is carried but never read by the streaming path. -/
structure ChunkChoice where
  delta : ChunkDelta
  finishReason : String
deriving DecidableEq, Repr

/-- One streamed chunk; the usage block reported by the vendor is carried
but never read by the streaming path. -/
structure StreamChunk where
  choices : List ChunkChoice
  usage : CompletionUsage
deriving DecidableEq, Repr

/-- The in-flight state of the streaming loop: the running text buffer and
the tool-call accumulator map. -/
structure StreamState where
  fullText : String
  toolCallsMap : AccMap
deriving DecidableEq, Repr

/-- The consumption loop of `generateTextStream`: per chunk, take choice
zero's delta if present; on non-empty text, append it to the buffer and
invoke the sink callback with that chunk's own text (a callback failure
aborts the whole call); then fold the chunk's tool-call deltas into the
accumulator map. -/
def runStreamLoop (cb : Option (String → Except String Unit)) :
    List StreamChunk → StreamState → Except String StreamState
  | [], st => Except.ok st
  | chunk :: rest, st =>
    match chunk.choices with
    | [] => runStreamLoop cb rest st
    | choice :: _ =>
      let delta := choice.delta
      let step : Except String StreamState :=
        if delta.content ≠ "" then
          match cb with
          | some f =>
            match f delta.content with
            | Except.ok _ => Except.ok { st with fullText := st.fullText ++ delta.content }
            | Except.error e => Except.error ("streaming callback error: " ++ e)
          | none => Except.ok { st with fullText := st.fullText ++ delta.content }
        else Except.ok st
      match step with
      | Except.error e => Except.error e
      | Except.ok st1 =>
        runStreamLoop cb rest
          { st1 with toolCallsMap := applyToolDeltas st1.toolCallsMap delta.toolCalls }

/-- Go `convertToolCallsToParts`: walk the accumulator map; an accumulator
with an empty name is skipped; a non-empty argument buffer is JSON-decoded,
and a decode failure makes the whole conversion fail; an empty buffer
yields the nil arguments value `vnil`. -/
def convertToolCallsToParts (dec : String → Option V) (vnil : V) :
    AccMap → Except String (List (Part V))
  | [] => Except.ok []
  | (_, tc) :: rest =>
    if tc.name = "" then convertToolCallsToParts dec vnil rest
    else
      match
        (if 0 < tc.arguments.length then
          match dec tc.arguments with
          | some v => Except.ok v
          | none =>
            Except.error ("failed to unmarshal tool arguments for " ++ tc.name)
        else Except.ok vnil : Except String V)
      with
      | Except.error e => Except.error e
      | Except.ok v =>
        match convertToolCallsToParts dec vnil rest with
        | Except.error e => Except.error e
        | Except.ok parts => Except.ok (Part.toolRequest ⟨tc.name, v⟩ :: parts)

/-- Go `generateTextStream` after parameter building: run the consumption
loop, surface a deferred stream error, then build the final response — a
text part from the full buffer if non-empty, followed by the converted
tool-call parts (a conversion failure fails the whole call); the finish
reason is always `stop` and the usage block is left unset. -/
def generateTextStream (dec : String → Option V) (vnil : V)
    (cb : Option (String → Except String Unit)) (chunks : List StreamChunk)
    (streamErr : Option String) : Except String (ModelResponse V) :=
  match runStreamLoop cb chunks ⟨"", []⟩ with
  | Except.error e => Except.error e
  | Except.ok st =>
    match streamErr with
    | some e => Except.error ("stream error: " ++ e)
    | none =>
      let content : List (Part V) :=
        if 0 < st.fullText.length then [Part.text st.fullText] else []
      match convertToolCallsToParts dec vnil st.toolCallsMap with
      | Except.error e => Except.error ("failed to convert tool calls: " ++ e)
      | Except.ok toolParts =>
        Except.ok { content := content ++ toolParts,
                    finishReason := FinishReason.stop,
                    usage := none }

/-- The tool-call deltas a chunk feeds to the accumulator (choice zero's
delta, if any). -/
def chunkToolDeltas (chunk : StreamChunk) : List ToolCallDelta :=
  match chunk.choices with
  | [] => []
  | choice :: _ => choice.delta.toolCalls

/-! ## Modality routers: image generation and transcription -/

/-- The plugin's `ImageGenerationRequest`. -/
structure ImageGenerationRequest where
  prompt : String
  n : Int
  size : String
  quality : String
  style : String
  responseFormat : String
deriving DecidableEq, Repr

/-- The flattened prompt: the concatenation of every text part of every
message (`prompt += part.Text`). -/
def promptFromMessages (messages : List (Message V)) : String :=
  (messages.flatMap Message.content).foldl
    (fun acc p => if p.isText then acc ++ p.textStr else acc) ""

/-- The `n` override: an `int`-typed config value replaces the default. -/
def applyCfgN (bag : ConfigBag) (r : ImageGenerationRequest) :
    ImageGenerationRequest :=
  match List.lookup "n" bag with
  | some (GoVal.vint k) => { r with n := k }
  | _ => r

/-- The `size` override: a string-typed config value replaces the default. -/
def applyCfgSize (bag : ConfigBag) (r : ImageGenerationRequest) :
    ImageGenerationRequest :=
  match List.lookup "size" bag with
  | some (GoVal.vstr s) => { r with size := s }
  | _ => r

/-- The `quality` override: a string-typed config value replaces the default. -/
def applyCfgQuality (bag : ConfigBag) (r : ImageGenerationRequest) :
    ImageGenerationRequest :=
  match List.lookup "quality" bag with
  | some (GoVal.vstr s) => { r with quality := s }
  | _ => r

/-- The `style` override: a string-typed config value replaces the default. -/
def applyCfgStyle (bag : ConfigBag) (r : ImageGenerationRequest) :
    ImageGenerationRequest :=
  match List.lookup "style" bag with
  | some (GoVal.vstr s) => { r with style := s }
  | _ => r

/-- The `response_format` override: a string-typed config value replaces the
default. -/
def applyCfgFormat (bag : ConfigBag) (r : ImageGenerationRequest) :
    ImageGenerationRequest :=
  match List.lookup "response_format" bag with
  | some (GoVal.vstr s) => { r with responseFormat := s }
  | _ => r

/-- The config-application block of `generateImages`, key by key in source
order; a wrong-typed value leaves the default in place. -/
def applyImageConfig (bag : ConfigBag) (r : ImageGenerationRequest) :
    ImageGenerationRequest :=
  applyCfgFormat bag (applyCfgStyle bag (applyCfgQuality bag
    (applyCfgSize bag (applyCfgN bag r))))

/-- The effective image request built by `generateImages`: defaults
(n=1, size=1024x1024, quality=standard, style=vivid, format=url) overridden
from the config bag when it is a map (`none` models a nil or non-map
config). -/
def generateImagesRequest (messages : List (Message V))
    (config : Option ConfigBag) : ImageGenerationRequest :=
  let req : ImageGenerationRequest :=
    ⟨promptFromMessages messages, 1, "1024x1024", "standard", "vivid", "url"⟩
  match config with
  | none => req
  | some bag => applyImageConfig bag req

/-- The plugin's `STTRequest` (audio bytes modelled as a list of byte
values). -/
structure STTRequest where
  audio : List Nat
  filename : String
  language : String
  prompt : String
  responseFormat : String
  temperature : ℚ
deriving DecidableEq, Repr

/-- The filename chosen from the media type markers inside the data URI. -/
def detectFilename (mediaText : String) : String :=
  if strContains mediaText "audio/mp3" || strContains mediaText "audio/mpeg" then
    "audio.mp3"
  else if strContains mediaText "audio/wav" then "audio.wav"
  else if strContains mediaText "audio/opus" then "audio.opus"
  else "audio.mp3"

/-- The audio-extraction loop of `transcribeAudioFromRequest` over the
flattened part sequence: for each media part whose text contains the
`base64,` marker, base64-decode the suffix (a decode failure fails the
call) and remember the bytes and detected filename (a later media part
overwrites an earlier one). -/
def extractAudioLoop (b64dec : String → Option (List Nat)) :
    List (Part V) → List Nat × String → Except String (List Nat × String)
  | [], st => Except.ok st
  | p :: rest, st =>
    if p.isMedia then
      match dropAfterSub "base64,".toList p.textStr.toList with
      | none => extractAudioLoop b64dec rest st
      | some b64 =>
        match b64dec (String.mk b64) with
        | none => Except.error "failed to decode audio"
        | some bytes =>
          extractAudioLoop b64dec rest (bytes, detectFilename p.textStr)
    else extractAudioLoop b64dec rest st

/-- The result of `transcribeAudioFromRequest` up to the vendor boundary:
either an error raised before any vendor call, or the transcription request
handed to the vendor operation. -/
inductive TranscribeResult
  | error (msg : String)
  | vendorCall (req : STTRequest)
deriving DecidableEq, Repr

/-- The config-application block for transcription (`language`, `prompt`,
`response_format`, `temperature`), wrong-typed values ignored. -/
def applySTTConfig (config : Option ConfigBag) (r : STTRequest) : STTRequest :=
  match config with
  | none => r
  | some bag =>
    let r1 :=
      match List.lookup "language" bag with
      | some (GoVal.vstr s) => { r with language := s }
      | _ => r
    let r2 :=
      match List.lookup "prompt" bag with
      | some (GoVal.vstr s) => { r1 with prompt := s }
      | _ => r1
    let r3 :=
      match List.lookup "response_format" bag with
      | some (GoVal.vstr s) => { r2 with responseFormat := s }
      | _ => r2
    match List.lookup "temperature" bag with
    | some (GoVal.vfloat q) => { r3 with temperature := q }
    | _ => r3

/-- Go `transcribeAudioFromRequest` up to the vendor call: extract audio
from the media parts; empty audio is the hard failure
"no audio data found in request"; otherwise build the request
(format defaulting to json) and hand it to the vendor. -/
def transcribeAudioFromRequest (b64dec : String → Option (List Nat))
    (messages : List (Message V)) (config : Option ConfigBag) :
    TranscribeResult :=
  match extractAudioLoop b64dec (messages.flatMap Message.content) ([], "") with
  | Except.error e => TranscribeResult.error e
  | Except.ok (audio, filename) =>
    if audio.length == 0 then
      TranscribeResult.error "no audio data found in request"
    else
      TranscribeResult.vendorCall (applySTTConfig config
        { audio := audio, filename := filename, language := "", prompt := "",
          responseFormat := "json", temperature := 0 })

/-! ## Helper lemmas -/

theorem listStartsWith_append (p q : List Char) :
    ∀ s : List Char, listStartsWith s (p ++ q) = true → listStartsWith s p = true := by
  induction p with
  | nil => intro s _; cases s <;> rfl
  | cons a as ih =>
    intro s h
    cases s with
    | nil => simp [listStartsWith] at h
    | cons b bs =>
      simp only [List.cons_append, listStartsWith, Bool.and_eq_true] at h ⊢
      exact ⟨h.1, ih bs h.2⟩

theorem listHasSub_append (p q : List Char) :
    ∀ s : List Char, listHasSub s (p ++ q) = true → listHasSub s p = true := by
  intro s
  induction s with
  | nil =>
    intro h
    cases p with
    | nil => rfl
    | cons a as => simp [listHasSub, listStartsWith] at h
  | cons c tail ih =>
    intro h
    simp only [listHasSub, Bool.or_eq_true] at h ⊢
    rcases h with h | h
    · exact Or.inl (listStartsWith_append p q _ h)
    · exact Or.inr (ih h)

theorem strContains_tts (l : String) (h : strContains l "tts-" = true) :
    strContains l "tts" = true := by
  have hpat : ("tts-".toList : List Char) = "tts".toList ++ ['-'] := rfl
  unfold strContains at h ⊢
  rw [hpat] at h
  exact listHasSub_append _ _ _ h

theorem string_ne_empty_length {s : String} (h : s ≠ "") : 0 < s.length := by
  cases s with
  | mk data =>
    cases data with
    | nil => exact absurd rfl h
    | cons c cs => simp [String.length]

/-! ## Claim theorems -/

/-- Claim C5: `generateText` routes by case-insensitive substring match on
the model identifier in fixed priority order — `dall-e`/`gpt-image` to
image generation, then `tts` to speech synthesis, then
`whisper`/`transcribe` to transcription, and everything else to chat
(the source's extra `tts-` test is subsumed by the `tts` test). -/
theorem model_routing_refines_spec (m : String) :
    generateTextRoute m = routeSpec m := by
  unfold generateTextRoute routeSpec
  cases hB : strContains m.toLower "tts" with
  | true => simp [hB]
  | false =>
    have hB1 : strContains m.toLower "tts-" = false := by
      cases h1 : strContains m.toLower "tts-"
      · rfl
      · rw [strContains_tts _ h1] at hB; exact absurd hB (by simp)
    simp [hB, hB1]

/-- Claim C6: finish-reason normalization is a pure total function mapping
`stop` to stop, `length` to length, `content_filter` to blocked,
`tool_calls` and `function_call` to stop, and every other string to
other. -/
theorem finish_reason_table :
    convertFinishReason "stop" = FinishReason.stop ∧
    convertFinishReason "length" = FinishReason.length ∧
    convertFinishReason "content_filter" = FinishReason.blocked ∧
    convertFinishReason "tool_calls" = FinishReason.stop ∧
    convertFinishReason "function_call" = FinishReason.stop ∧
    ∀ s : String,
      s ∉ (["stop", "length", "content_filter", "tool_calls",
            "function_call"] : List String) →
      convertFinishReason s = FinishReason.other := by
  refine ⟨rfl, rfl, rfl, rfl, rfl, ?_⟩
  intro s hs
  simp only [List.mem_cons, List.mem_singleton, not_or] at hs
  unfold convertFinishReason
  split <;> simp_all

/-- Witness for C6: an unmapped vendor reason normalizes to other. -/
theorem finish_reason_table_witness :
    convertFinishReason "banana" = FinishReason.other :=
  finish_reason_table.2.2.2.2.2 "banana" (by decide)

/-- Claim C9: the non-streaming converter fills the usage counters only
when the vendor reports a positive prompt-token count; otherwise all three
counters stay zero even when the completion or total counts are nonzero. -/
theorem usage_counters_gated_on_prompt_tokens (V : Type)
    (dec : String → Option V) (resp : ChatCompletion) :
    (¬ 0 < resp.usage.promptTokens →
      usageCounters (convertResponse dec resp) = (0, 0, 0)) ∧
    (0 < resp.usage.promptTokens → resp.choices ≠ [] →
      (convertResponse dec resp).usage =
        some ⟨resp.usage.promptTokens, resp.usage.completionTokens,
              resp.usage.totalTokens⟩) := by
  constructor
  · intro h
    unfold convertResponse
    cases hc : resp.choices with
    | nil => rfl
    | cons choice rest => simp [usageCounters, h]
  · intro h hne
    unfold convertResponse
    cases hc : resp.choices with
    | nil => exact absurd hc hne
    | cons choice rest => simp [h]

/-- Witness for C9: prompt count zero with nonzero completion and total
counts still yields all-zero counters. -/
theorem usage_counters_witness :
    usageCounters (convertResponse (fun _ => (none : Option Unit))
      ⟨[⟨⟨"t", []⟩, "stop"⟩], ⟨0, 5, 5⟩⟩) = (0, 0, 0) :=
  (usage_counters_gated_on_prompt_tokens Unit (fun _ => none)
    ⟨[⟨⟨"t", []⟩, "stop"⟩], ⟨0, 5, 5⟩⟩).1 (by decide)

/-- Claim C10: every successful streaming chat call reports finish reason
stop and leaves the usage block unset, regardless of the finish reasons or
usage blocks the vendor streamed. -/
theorem streaming_finish_reason_and_usage (V : Type)
    (dec : String → Option V) (vnil : V)
    (cb : Option (String → Except String Unit)) (chunks : List StreamChunk)
    (streamErr : Option String) (resp : ModelResponse V)
    (h : generateTextStream dec vnil cb chunks streamErr = Except.ok resp) :
    resp.finishReason = FinishReason.stop ∧ resp.usage = none := by
  unfold generateTextStream at h
  split at h
  · exact absurd h (by simp)
  · split at h
    · exact absurd h (by simp)
    · dsimp only at h
      split at h
      · exact absurd h (by simp)
      · injection h with h2
        rw [← h2]
        exact ⟨rfl, rfl⟩

/-- Witness for C10: the empty stream succeeds with finish reason stop and
no usage. -/
theorem streaming_finish_reason_witness :
    (⟨[], FinishReason.stop, none⟩ : ModelResponse Unit).finishReason =
        FinishReason.stop ∧
      (⟨[], FinishReason.stop, none⟩ : ModelResponse Unit).usage = none :=
  streaming_finish_reason_and_usage Unit (fun _ => none) () none [] none
    ⟨[], FinishReason.stop, none⟩ rfl

/-- Claim C7: a transcription request whose messages contain no media part
fails with the "no audio data found" condition, issuing no vendor call
(the result is `TranscribeResult.error`, never `vendorCall`). -/
theorem transcription_no_audio (V : Type)
    (b64dec : String → Option (List Nat)) (messages : List (Message V))
    (config : Option ConfigBag)
    (h : ∀ msg ∈ messages, ∀ p ∈ msg.content, p.isMedia = false) :
    transcribeAudioFromRequest b64dec messages config =
      TranscribeResult.error "no audio data found in request" := by
  have hparts : ∀ p ∈ messages.flatMap Message.content, p.isMedia = false := by
    intro p hp
    rw [List.mem_flatMap] at hp
    obtain ⟨msg, hm, hpc⟩ := hp
    exact h msg hm p hpc
  have hloop : extractAudioLoop b64dec (messages.flatMap Message.content)
      ([], "") = Except.ok ([], "") := by
    generalize messages.flatMap Message.content = parts at hparts
    induction parts with
    | nil => rfl
    | cons p rest ih =>
      have hp := hparts p (List.mem_cons_self p rest)
      unfold extractAudioLoop
      simp only [hp, Bool.false_eq_true, if_false]
      exact ih fun q hq => hparts q (List.mem_cons_of_mem p hq)
  unfold transcribeAudioFromRequest
  rw [hloop]
  rfl

/-- Witness for C7: a text-only request fails with "no audio data found". -/
theorem transcription_no_audio_witness :
    transcribeAudioFromRequest (fun _ => none)
      [(⟨Role.user, [Part.text "hi"]⟩ : Message Unit)] none =
      TranscribeResult.error "no audio data found in request" :=
  transcription_no_audio Unit (fun _ => none)
    [⟨Role.user, [Part.text "hi"]⟩] none (by decide)

/-! Field-by-field description of the image-config application. -/

theorem applyCfgN_eq (bag : ConfigBag) (r : ImageGenerationRequest) :
    applyCfgN bag r =
      { r with n := match List.lookup "n" bag with
                    | some (GoVal.vint k) => k
                    | _ => r.n } := by
  unfold applyCfgN
  cases hl : List.lookup "n" bag with
  | none => rfl
  | some v => cases v <;> rfl

theorem applyCfgSize_eq (bag : ConfigBag) (r : ImageGenerationRequest) :
    applyCfgSize bag r =
      { r with size := match List.lookup "size" bag with
                       | some (GoVal.vstr s) => s
                       | _ => r.size } := by
  unfold applyCfgSize
  cases hl : List.lookup "size" bag with
  | none => rfl
  | some v => cases v <;> rfl

theorem applyCfgQuality_eq (bag : ConfigBag) (r : ImageGenerationRequest) :
    applyCfgQuality bag r =
      { r with quality := match List.lookup "quality" bag with
                          | some (GoVal.vstr s) => s
                          | _ => r.quality } := by
  unfold applyCfgQuality
  cases hl : List.lookup "quality" bag with
  | none => rfl
  | some v => cases v <;> rfl

theorem applyCfgStyle_eq (bag : ConfigBag) (r : ImageGenerationRequest) :
    applyCfgStyle bag r =
      { r with style := match List.lookup "style" bag with
                        | some (GoVal.vstr s) => s
                        | _ => r.style } := by
  unfold applyCfgStyle
  cases hl : List.lookup "style" bag with
  | none => rfl
  | some v => cases v <;> rfl

theorem applyCfgFormat_eq (bag : ConfigBag) (r : ImageGenerationRequest) :
    applyCfgFormat bag r =
      { r with responseFormat :=
          match List.lookup "response_format" bag with
          | some (GoVal.vstr s) => s
          | _ => r.responseFormat } := by
  unfold applyCfgFormat
  cases hl : List.lookup "response_format" bag with
  | none => rfl
  | some v => cases v <;> rfl

theorem applyImageConfig_fields (bag : ConfigBag) (r : ImageGenerationRequest) :
    applyImageConfig bag r =
      { prompt := r.prompt,
        n := match List.lookup "n" bag with
             | some (GoVal.vint k) => k
             | _ => r.n,
        size := match List.lookup "size" bag with
                | some (GoVal.vstr s) => s
                | _ => r.size,
        quality := match List.lookup "quality" bag with
                   | some (GoVal.vstr s) => s
                   | _ => r.quality,
        style := match List.lookup "style" bag with
                 | some (GoVal.vstr s) => s
                 | _ => r.style,
        responseFormat := match List.lookup "response_format" bag with
                          | some (GoVal.vstr s) => s
                          | _ => r.responseFormat } := by
  unfold applyImageConfig
  rw [applyCfgN_eq, applyCfgSize_eq, applyCfgQuality_eq, applyCfgStyle_eq,
    applyCfgFormat_eq]

/-- Claim C8: the effective image request uses quality "standard" when the
config bag has no `quality` key, the supplied string when `quality` maps to
a string, and "standard" again when `quality` maps to a non-string value;
the same override-or-keep-default rule holds for `n` (default 1), `size`
(default 1024x1024), `style` (default vivid) and `response_format` (default
url), and a nil config leaves every default. -/
theorem image_config_defaults (V : Type) (messages : List (Message V))
    (bag : ConfigBag) :
    (generateImagesRequest messages (some bag)).quality =
      (match List.lookup "quality" bag with
       | some (GoVal.vstr s) => s
       | _ => "standard") ∧
    (generateImagesRequest messages (some bag)).n =
      (match List.lookup "n" bag with
       | some (GoVal.vint k) => k
       | _ => 1) ∧
    (generateImagesRequest messages (some bag)).size =
      (match List.lookup "size" bag with
       | some (GoVal.vstr s) => s
       | _ => "1024x1024") ∧
    (generateImagesRequest messages (some bag)).style =
      (match List.lookup "style" bag with
       | some (GoVal.vstr s) => s
       | _ => "vivid") ∧
    (generateImagesRequest messages (some bag)).responseFormat =
      (match List.lookup "response_format" bag with
       | some (GoVal.vstr s) => s
       | _ => "url") ∧
    generateImagesRequest messages none =
      ⟨promptFromMessages messages, 1, "1024x1024", "standard", "vivid",
        "url"⟩ := by
  refine ⟨?_, ?_, ?_, ?_, ?_, rfl⟩ <;>
    simp [generateImagesRequest, applyImageConfig_fields]

/-! ## C3 and C4: translator shape and message omission -/

/-- A JSON encoder that always fails, modelling Go values `json.Marshal`
cannot encode (channels, functions, cycles). -/
def encNone : Unit → Option String := fun _ => none

/-- A user message made of two tool-request parts: more than one part, but
neither a media part nor a text part. -/
def c3msg : Message Unit :=
  ⟨Role.user, [Part.toolRequest ⟨"a", ()⟩, Part.toolRequest ⟨"b", ()⟩]⟩

/-- Counterexample to claim C3 as stated: this user message has more than
one part, yet the translator emits a plain string content, not an
array-of-parts content. -/
theorem user_array_content_counterexample :
    c3msg.role = Role.user ∧ 1 < c3msg.content.length ∧
    convertOneMessage encNone c3msg = [OAMessage.userString ""] :=
  ⟨rfl, by decide, rfl⟩

theorem convertMessages_cons (V : Type) (enc : V → Option String)
    (m : Message V) (rest : List (Message V)) :
    convertMessagesToOpenAI enc (m :: rest) =
      convertOneMessage enc m ++ convertMessagesToOpenAI enc rest := by
  simp [convertMessagesToOpenAI]

theorem convertMessages_append (V : Type) (enc : V → Option String)
    (l1 l2 : List (Message V)) :
    convertMessagesToOpenAI enc (l1 ++ l2) =
      convertMessagesToOpenAI enc l1 ++ convertMessagesToOpenAI enc l2 := by
  induction l1 with
  | nil => rfl
  | cons m rest ih =>
    rw [List.cons_append, convertMessages_cons, convertMessages_cons, ih,
      List.append_assoc]

/-- Claim C3 (amended): for a user message the translator emits an
array-of-parts content exactly when the message contains at least one media
part, or contains at least one text part and more than one part in total;
otherwise (and with non-empty content) it emits a plain string content
carrying the first part's text. -/
theorem user_array_content_amended (V : Type) (enc : V → Option String)
    (msg : Message V) (hrole : msg.role = Role.user) :
    ((∃ ps, convertOneMessage enc msg = [OAMessage.userParts ps]) ↔
      (msg.content.any Part.isMedia ||
        (msg.content.any Part.isText && decide (1 < msg.content.length))) = true) ∧
    (msg.content ≠ [] →
      (msg.content.any Part.isMedia ||
        (msg.content.any Part.isText && decide (1 < msg.content.length))) = false →
      convertOneMessage enc msg =
        [OAMessage.userString (firstPartText msg.content)]) := by
  obtain ⟨role, content⟩ := msg
  simp only at hrole
  subst hrole
  have hcond : ∀ b : Bool,
      ((⟨Role.user, content⟩ : Message V).content.any Part.isMedia ||
        ((⟨Role.user, content⟩ : Message V).content.any Part.isText &&
          decide (1 < (⟨Role.user, content⟩ : Message V).content.length))) = b ↔
      hasMultimodalContent (⟨Role.user, content⟩ : Message V) = b := by
    intro b; rfl
  constructor
  · rw [hcond]
    constructor
    · rintro ⟨ps, hps⟩
      by_contra hfalse
      rw [Bool.not_eq_true] at hfalse
      unfold convertOneMessage at hps
      cases content with
      | nil => simp at hps
      | cons p rest => simp [hfalse] at hps
    · intro htrue
      refine ⟨userContentParts content, ?_⟩
      have hne : content ≠ [] := by
        intro hc
        subst hc
        simp [hasMultimodalContent] at htrue
      unfold convertOneMessage
      cases content with
      | nil => exact absurd rfl hne
      | cons p rest => simp [htrue]
  · intro hne hfalse
    rw [hcond] at hfalse
    unfold convertOneMessage
    cases content with
    | nil => exact absurd rfl hne
    | cons p rest => simp [hfalse]

/-- Witness for the amended C3: a single-media-part user message emits an
array-of-parts content, as the condition demands. -/
theorem user_array_content_amended_witness :
    ((∃ ps, convertOneMessage encNone
        (⟨Role.user, [Part.media "u"]⟩ : Message Unit) =
        [OAMessage.userParts ps]) ↔
      ((⟨Role.user, [Part.media "u"]⟩ : Message Unit).content.any Part.isMedia ||
        ((⟨Role.user, [Part.media "u"]⟩ : Message Unit).content.any Part.isText &&
          decide (1 < (⟨Role.user, [Part.media "u"]⟩ : Message Unit).content.length))) =
        true) ∧
    ((⟨Role.user, [Part.media "u"]⟩ : Message Unit).content ≠ [] →
      ((⟨Role.user, [Part.media "u"]⟩ : Message Unit).content.any Part.isMedia ||
        ((⟨Role.user, [Part.media "u"]⟩ : Message Unit).content.any Part.isText &&
          decide (1 < (⟨Role.user, [Part.media "u"]⟩ : Message Unit).content.length))) =
        false →
      convertOneMessage encNone (⟨Role.user, [Part.media "u"]⟩ : Message Unit) =
        [OAMessage.userString
          (firstPartText (⟨Role.user, [Part.media "u"]⟩ : Message Unit).content)]) :=
  user_array_content_amended Unit encNone ⟨Role.user, [Part.media "u"]⟩ rfl

/-- A model-role message whose only part is a tool request with an
unencodable input: every entry is dropped during translation. -/
def c4msg : Message Unit := ⟨Role.model, [Part.toolRequest ⟨"f", ()⟩]⟩

/-- Counterexample to claim C4 as stated: all of this model message's
entries are dropped (no text, no encodable tool call), yet the translated
sequence is not empty — an assistant message with empty content is still
emitted. -/
theorem empty_message_omission_counterexample :
    modelTextContent c4msg.content = "" ∧
    assistantToolCalls encNone c4msg.content = [] ∧
    convertMessagesToOpenAI encNone [c4msg] = [OAMessage.assistant "" []] ∧
    convertMessagesToOpenAI encNone [c4msg] ≠ [] :=
  ⟨rfl, rfl, rfl, by decide⟩

/-- Claim C4 (amended): a message with an empty content list contributes no
vendor message, and a tool-role message none of whose parts yields a
tool-result entry is likewise omitted; but a model-role message with
non-empty content always contributes an assistant message, even when every
entry was dropped (it then carries empty text and no tool calls). -/
theorem empty_message_omission_amended (V : Type) (enc : V → Option String)
    (pre post : List (Message V)) (msg : Message V) :
    (msg.content = [] →
      convertMessagesToOpenAI enc (pre ++ msg :: post) =
        convertMessagesToOpenAI enc (pre ++ post)) ∧
    (msg.role = Role.tool → toolMessages enc msg.content = [] →
      convertMessagesToOpenAI enc (pre ++ msg :: post) =
        convertMessagesToOpenAI enc (pre ++ post)) ∧
    (msg.role = Role.model → msg.content ≠ [] →
      convertMessagesToOpenAI enc (pre ++ msg :: post) =
        convertMessagesToOpenAI enc pre ++
          OAMessage.assistant (modelTextContent msg.content)
              (assistantToolCalls enc msg.content) ::
            convertMessagesToOpenAI enc post) := by
  have key : convertMessagesToOpenAI enc (pre ++ msg :: post) =
      convertMessagesToOpenAI enc pre ++
        (convertOneMessage enc msg ++ convertMessagesToOpenAI enc post) := by
    rw [convertMessages_append, convertMessages_cons]
  refine ⟨?_, ?_, ?_⟩
  · intro hc
    have hone : convertOneMessage enc msg = [] := by
      unfold convertOneMessage
      rw [hc]
      rfl
    rw [key, hone, convertMessages_append, List.nil_append]
  · intro hrole htm
    have hone : convertOneMessage enc msg = [] := by
      unfold convertOneMessage
      rw [hrole]
      split
      · rfl
      · exact htm
    rw [key, hone, convertMessages_append, List.nil_append]
  · intro hrole hne
    have hone : convertOneMessage enc msg =
        [OAMessage.assistant (modelTextContent msg.content)
          (assistantToolCalls enc msg.content)] := by
      unfold convertOneMessage
      rw [hrole]
      have hc : msg.content.isEmpty = false := by
        cases hcc : msg.content with
        | nil => exact absurd hcc hne
        | cons p rest => rfl
      rw [hc]
      rfl
    rw [key, hone, List.singleton_append]

/-- Witness for the amended C4: a tool-role message whose single part is
not a tool response contributes no vendor message. -/
theorem empty_message_omission_amended_witness :
    convertMessagesToOpenAI encNone
        ([] ++ (⟨Role.tool, [Part.text "x"]⟩ : Message Unit) :: []) =
      convertMessagesToOpenAI encNone ([] ++ []) :=
  (empty_message_omission_amended Unit encNone [] []
    ⟨Role.tool, [Part.text "x"]⟩).2.1 rfl rfl

/-! ## C1: JSON translation-failure policy -/

theorem responseToolParts_skip (V : Type) (dec : String → Option V)
    (pre post : List OAToolCall) (tc : OAToolCall)
    (h : dec tc.arguments = none) :
    responseToolParts dec (pre ++ tc :: post) =
      responseToolParts dec (pre ++ post) := by
  unfold responseToolParts
  rw [List.filterMap_append, List.filterMap_append, List.filterMap_cons]
  simp [h]

/-- `convertToolCallsToParts` succeeds only when every named, non-empty
accumulator buffer decodes. -/
theorem convertToolCalls_ok_all (V : Type) (dec : String → Option V)
    (vnil : V) :
    ∀ (m : AccMap) (parts : List (Part V)),
    convertToolCallsToParts dec vnil m = Except.ok parts →
    ∀ p ∈ m, ¬(p.2.name ≠ "" ∧ p.2.arguments ≠ "" ∧ dec p.2.arguments = none) := by
  intro m
  induction m with
  | nil => intro parts _ p hp; simp at hp
  | cons entry rest ih =>
    obtain ⟨i, tc⟩ := entry
    intro parts hok p hp
    unfold convertToolCallsToParts at hok
    by_cases hn : tc.name = ""
    · rw [if_pos hn] at hok
      rcases List.mem_cons.mp hp with heq | hp2
      · subst heq
        rintro ⟨hname, _, _⟩
        exact hname hn
      · exact ih parts hok p hp2
    · rw [if_neg hn] at hok
      split at hok
      · simp at hok
      · rename_i v heq
        split at hok
        · simp at hok
        · rename_i parts2 heq2
          rcases List.mem_cons.mp hp with heq3 | hp2
          · subst heq3
            rintro ⟨_, hargs, hdec⟩
            rw [if_pos (string_ne_empty_length hargs), hdec] at heq
            simp at heq
          · exact ih parts2 heq2 p hp2

theorem convertToolCalls_fails (V : Type) (dec : String → Option V)
    (vnil : V) (m : AccMap)
    (hbad : ∃ p ∈ m, p.2.name ≠ "" ∧ p.2.arguments ≠ "" ∧
      dec p.2.arguments = none) :
    ∃ e, convertToolCallsToParts dec vnil m = Except.error e := by
  cases hres : convertToolCallsToParts dec vnil m with
  | error e => exact ⟨e, rfl⟩
  | ok parts =>
    obtain ⟨p, hp, h1, h2, h3⟩ := hbad
    exact absurd ⟨h1, h2, h3⟩ (convertToolCalls_ok_all V dec vnil m parts hres p hp)

/-- Claim C1: JSON translation failures follow a path-dependent policy.
Non-streaming: a tool call whose arguments fail to decode is omitted while
the text part and the other tool calls are kept unchanged.  Streaming: an
accumulated tool call with non-empty name and non-empty buffer that fails
to decode at finalization makes the whole call return an error (no
response).  Outbound: a tool-request or tool-response part whose value
fails to encode is skipped, without an error, leaving the other entries. -/
theorem translation_failure_policy (V : Type) (dec : String → Option V)
    (enc : V → Option String) (vnil : V) :
    (∀ (txt fr : String) (u : CompletionUsage) (pre post : List OAToolCall)
       (tc : OAToolCall), dec tc.arguments = none →
      (convertResponse dec ⟨[⟨⟨txt, pre ++ tc :: post⟩, fr⟩], u⟩).content =
        (convertResponse dec ⟨[⟨⟨txt, pre ++ post⟩, fr⟩], u⟩).content) ∧
    (∀ (cb : Option (String → Except String Unit)) (chunks : List StreamChunk)
       (st : StreamState), runStreamLoop cb chunks ⟨"", []⟩ = Except.ok st →
      (∃ p ∈ st.toolCallsMap, p.2.name ≠ "" ∧ p.2.arguments ≠ "" ∧
        dec p.2.arguments = none) →
      ∃ e, generateTextStream dec vnil cb chunks none = Except.error e) ∧
    (∀ (pre post : List (Part V)) (tr : ToolRequest V), enc tr.input = none →
      assistantToolCalls enc (pre ++ Part.toolRequest tr :: post) =
        assistantToolCalls enc (pre ++ post)) ∧
    (∀ (pre post : List (Part V)) (tr : ToolResponse V), enc tr.output = none →
      toolMessages enc (pre ++ Part.toolResponse tr :: post) =
        toolMessages enc (pre ++ post)) := by
  refine ⟨?_, ?_, ?_, ?_⟩
  · intro txt fr u pre post tc h
    show (if txt ≠ "" then [Part.text txt] else []) ++
        responseToolParts dec (pre ++ tc :: post) =
      (if txt ≠ "" then [Part.text txt] else []) ++
        responseToolParts dec (pre ++ post)
    rw [responseToolParts_skip V dec pre post tc h]
  · intro cb chunks st hrun hbad
    obtain ⟨e, he⟩ := convertToolCalls_fails V dec vnil st.toolCallsMap hbad
    refine ⟨"failed to convert tool calls: " ++ e, ?_⟩
    unfold generateTextStream
    rw [hrun]
    dsimp only
    rw [he]
  · intro pre post tr h
    unfold assistantToolCalls
    rw [List.filterMap_append, List.filterMap_append, List.filterMap_cons]
    simp [h]
  · intro pre post tr h
    unfold toolMessages
    rw [List.filterMap_append, List.filterMap_append, List.filterMap_cons]
    simp [h]

/-- A decoder accepting exactly the string "ok" (concrete stand-in for
`json.Unmarshal`). -/
def decOk : String → Option Unit := fun s => if s == "ok" then some () else none

/-- Witness for C1: all four policies exercised at concrete inputs — a bad
tool call dropped from a non-streaming response next to a good one, a
streaming finalization failure, and skipped outbound encode failures. -/
theorem translation_failure_policy_witness :
    ((convertResponse decOk
        ⟨[⟨⟨"t", [⟨"id1", "g", "ok"⟩, ⟨"id2", "f", "bad"⟩]⟩, "stop"⟩],
          ⟨1, 2, 3⟩⟩).content =
      (convertResponse decOk
        ⟨[⟨⟨"t", [⟨"id1", "g", "ok"⟩]⟩, "stop"⟩], ⟨1, 2, 3⟩⟩).content) ∧
    (∃ e, generateTextStream decOk () none
        [⟨[⟨⟨"", [⟨0, "i", "f", "bad"⟩]⟩, "stop"⟩], ⟨0, 0, 0⟩⟩] none =
      Except.error e) ∧
    (assistantToolCalls encNone
        ([] ++ Part.toolRequest ⟨"f", ()⟩ :: []) =
      assistantToolCalls encNone ([] ++ [])) ∧
    (toolMessages encNone ([] ++ Part.toolResponse ⟨"g", ()⟩ :: []) =
      toolMessages encNone ([] ++ [])) :=
  ⟨(translation_failure_policy Unit decOk encNone ()).1 "t" "stop" ⟨1, 2, 3⟩
      [⟨"id1", "g", "ok"⟩] [] ⟨"id2", "f", "bad"⟩ rfl,
   (translation_failure_policy Unit decOk encNone ()).2.1 none
      [⟨[⟨⟨"", [⟨0, "i", "f", "bad"⟩]⟩, "stop"⟩], ⟨0, 0, 0⟩⟩]
      ⟨"", [(0, ⟨"i", "f", "bad"⟩)]⟩ rfl (by decide),
   (translation_failure_policy Unit decOk encNone ()).2.2.1 [] [] ⟨"f", ()⟩ rfl,
   (translation_failure_policy Unit decOk encNone ()).2.2.2 [] [] ⟨"g", ()⟩ rfl⟩

/-! ## C2: streaming tool-call aggregation -/

/-- The sub-sequence of deltas addressed to positional index `i`. -/
def deltasFor (i : Nat) (ds : List ToolCallDelta) : List ToolCallDelta :=
  ds.filter fun d => d.index == i

/-- The last non-empty function name in a delta sequence, starting from a
default. -/
def lastNameFrom (dflt : String) : List ToolCallDelta → String
  | [] => dflt
  | d :: rest => lastNameFrom (if d.name ≠ "" then d.name else dflt) rest

/-- The last non-empty function name in a delta sequence (empty if none). -/
def lastNonEmptyName (ds : List ToolCallDelta) : String := lastNameFrom "" ds

/-- The concatenation of the non-empty argument fragments of a delta
sequence, appended to a start buffer. -/
def concatArgsFrom (acc : String) : List ToolCallDelta → String
  | [] => acc
  | d :: rest =>
    concatArgsFrom (if d.arguments ≠ "" then acc ++ d.arguments else acc) rest

/-- The concatenation of the non-empty argument fragments, in arrival
order. -/
def concatArgs (ds : List ToolCallDelta) : String := concatArgsFrom "" ds

/-- The accumulator for index `i` after a delta sequence, given its prior
state (`none` = not yet created): the specification-level recursion the
aggregation loop is proved against. -/
def accAfter (i : Nat) :
    Option ToolCallAccumulator → List ToolCallDelta → Option ToolCallAccumulator
  | st, [] => st
  | st, d :: rest =>
    if d.index == i then
      accAfter i (some (applyDeltaToAcc
        (match st with
         | some a => a
         | none => ⟨d.id, "", ""⟩) d)) rest
    else accAfter i st rest

theorem applyDeltaToAcc_eq (a : ToolCallAccumulator) (d : ToolCallDelta) :
    applyDeltaToAcc a d =
      ⟨a.id, if d.name ≠ "" then d.name else a.name,
        if d.arguments ≠ "" then a.arguments ++ d.arguments
        else a.arguments⟩ := by
  unfold applyDeltaToAcc
  by_cases hn : d.name = "" <;> by_cases ha : d.arguments = "" <;>
    simp [hn, ha]

theorem foldl_applyDelta (ds : List ToolCallDelta) :
    ∀ a : ToolCallAccumulator,
    ds.foldl applyDeltaToAcc a =
      ⟨a.id, lastNameFrom a.name ds, concatArgsFrom a.arguments ds⟩ := by
  induction ds with
  | nil => intro a; rfl
  | cons d rest ih =>
    intro a
    rw [List.foldl_cons, applyDeltaToAcc_eq, ih]
    simp [lastNameFrom, concatArgsFrom]

theorem accStore_lookup (i j : Nat) (a : ToolCallAccumulator) :
    ∀ m : AccMap,
    List.lookup j (accStore m i a) = if j = i then some a else List.lookup j m := by
  intro m
  induction m with
  | nil =>
    by_cases hj : j = i
    · simp [accStore, List.lookup, hj]
    · have hji : (j == i) = false := by simp [hj]
      simp [accStore, List.lookup, hj, hji]
  | cons entry rest ih =>
    obtain ⟨k, b⟩ := entry
    by_cases hk : k = i
    · subst hk
      by_cases hj : j = k
      · simp [accStore, List.lookup, hj]
      · have hjk : (j == k) = false := by simp [hj]
        simp [accStore, List.lookup, hj, hjk]
    · have hki : (k == i) = false := by simp [hk]
      by_cases hj : j = k
      · subst hj
        have hji : ¬ j = i := fun h => hk h
        simp [accStore, List.lookup, hki, hji]
      · have hjk : (j == k) = false := by simp [hj]
        simp [accStore, List.lookup, hki, hjk, ih]

theorem foldl_process_lookup (i : Nat) :
    ∀ (ds : List ToolCallDelta) (m : AccMap),
    List.lookup i (ds.foldl processToolCallDelta m) =
      accAfter i (List.lookup i m) ds := by
  intro ds
  induction ds with
  | nil => intro m; rfl
  | cons d rest ih =>
    intro m
    rw [List.foldl_cons, ih]
    unfold processToolCallDelta
    dsimp only
    rw [accStore_lookup]
    by_cases hd : d.index = i
    · simp [accAfter, hd]
    · simp [accAfter, hd, Ne.symm hd]

theorem accAfter_some (i : Nat) :
    ∀ (ds : List ToolCallDelta) (a : ToolCallAccumulator),
    accAfter i (some a) ds =
      some ((deltasFor i ds).foldl applyDeltaToAcc a) := by
  intro ds
  induction ds with
  | nil => intro a; rfl
  | cons d rest ih =>
    intro a
    by_cases hd : d.index = i <;> simp [accAfter, deltasFor, hd, ih]

theorem accAfter_none (i : Nat) :
    ∀ ds : List ToolCallDelta,
    accAfter i none ds =
      (match deltasFor i ds with
       | [] => none
       | d0 :: rest2 =>
         some ((d0 :: rest2).foldl applyDeltaToAcc ⟨d0.id, "", ""⟩)) := by
  intro ds
  induction ds with
  | nil => rfl
  | cons d rest ih =>
    by_cases hd : d.index = i
    · simp only [accAfter, hd, beq_self_eq_true, if_true, deltasFor,
        List.filter_cons_of_pos, beq_iff_eq]
      rw [accAfter_some]
      simp [deltasFor, List.foldl_cons]
    · simp [accAfter, deltasFor, hd, ih]

theorem applyToolDeltas_append (m : AccMap) (a b : List ToolCallDelta) :
    applyToolDeltas m (a ++ b) = applyToolDeltas (applyToolDeltas m a) b := by
  unfold applyToolDeltas
  rw [List.foldl_append]

/-- A successful streaming loop's final accumulator map is the fold of the
flattened delta sequence (the sink callback and text fragments never touch
the map). -/
theorem runStreamLoop_map (cb : Option (String → Except String Unit)) :
    ∀ (chunks : List StreamChunk) (st0 st : StreamState),
    runStreamLoop cb chunks st0 = Except.ok st →
    st.toolCallsMap =
      applyToolDeltas st0.toolCallsMap (chunks.flatMap chunkToolDeltas) := by
  intro chunks
  induction chunks with
  | nil =>
    intro st0 st h
    injection h with h2
    rw [← h2]
    rfl
  | cons chunk rest ih =>
    intro st0 st h
    unfold runStreamLoop at h
    cases hch : chunk.choices with
    | nil =>
      rw [hch] at h
      rw [ih st0 st h]
      simp [chunkToolDeltas, hch, List.flatMap_cons]
    | cons choice crest =>
      rw [hch] at h
      dsimp only at h
      split at h
      · exact absurd h (by simp)
      · rename_i st1 heq
        have hst1 : st1.toolCallsMap = st0.toolCallsMap := by
          split at heq
          · split at heq
            · split at heq
              · injection heq with hh; rw [← hh]
              · exact absurd heq (by simp)
            · injection heq with hh; rw [← hh]
          · injection heq with hh; rw [← hh]
        rw [ih _ st h]
        dsimp only
        rw [hst1, List.flatMap_cons, applyToolDeltas_append,
          show chunkToolDeltas chunk = choice.delta.toolCalls by
            simp [chunkToolDeltas, hch]]

/-- Claim C2: the streamed tool-call aggregator, keyed by the vendor index,
creates the accumulator on the first delta for an index capturing that
delta's call id; the accumulated name is the last non-empty name for the
index; the accumulated argument string is the concatenation of the
non-empty argument fragments in arrival order; a successful streaming loop
leaves exactly that aggregation of its flattened delta sequence; and at
finalization an accumulator with an empty name produces no tool-request
part. -/
theorem streaming_toolcall_aggregation (i : Nat) (ds : List ToolCallDelta) :
    (deltasFor i ds = [] → List.lookup i (streamAccs ds) = none) ∧
    (∀ (d0 : ToolCallDelta) (rest2 : List ToolCallDelta),
      deltasFor i ds = d0 :: rest2 →
      List.lookup i (streamAccs ds) =
        some ⟨d0.id, lastNonEmptyName (deltasFor i ds),
          concatArgs (deltasFor i ds)⟩) ∧
    (∀ (cb : Option (String → Except String Unit)) (chunks : List StreamChunk)
       (st : StreamState), runStreamLoop cb chunks ⟨"", []⟩ = Except.ok st →
      st.toolCallsMap = streamAccs (chunks.flatMap chunkToolDeltas)) ∧
    (∀ (V : Type) (dec : String → Option V) (vnil : V) (pre post : AccMap)
       (j : Nat) (ident args : String),
      convertToolCallsToParts dec vnil (pre ++ (j, ⟨ident, "", args⟩) :: post) =
        convertToolCallsToParts dec vnil (pre ++ post)) := by
  have base : List.lookup i (streamAccs ds) = accAfter i none ds := by
    unfold streamAccs applyToolDeltas
    rw [foldl_process_lookup]
    rfl
  refine ⟨?_, ?_, ?_, ?_⟩
  · intro hempty
    rw [base, accAfter_none, hempty]
  · intro d0 rest2 hds
    rw [base, accAfter_none, hds]
    dsimp only
    rw [List.foldl_cons, foldl_applyDelta]
    simp [lastNonEmptyName, concatArgs, lastNameFrom, concatArgsFrom,
      applyDeltaToAcc_eq]
  · intro cb chunks st hrun
    exact runStreamLoop_map cb chunks ⟨"", []⟩ st hrun
  · intro V dec vnil pre post j ident args
    induction pre with
    | nil => rfl
    | cons e pre2 ih =>
      obtain ⟨k, tc⟩ := e
      simp only [List.cons_append, convertToolCallsToParts, List.append_eq]
      rw [ih]

/-- A two-delta stream for index 0: the name arrives on the first delta
only, the argument string arrives split across both. -/
def c2ds : List ToolCallDelta :=
  [⟨0, "id0", "lookup", "ab"⟩, ⟨0, "zz", "", "cd"⟩]

/-- Witness for C2: the accumulated call for index 0 keeps the first
delta's id, the only non-empty name, and the concatenated arguments; index
1 gets no accumulator; a concrete one-chunk stream leaves exactly its
deltas' aggregation; and a nameless accumulator is dropped at
finalization. -/
theorem streaming_toolcall_aggregation_witness :
    List.lookup 0 (streamAccs c2ds) = some ⟨"id0", "lookup", "abcd"⟩ ∧
    List.lookup 1 (streamAccs c2ds) = none ∧
    (⟨"", [(0, ⟨"i", "f", "x"⟩)]⟩ : StreamState).toolCallsMap =
      streamAccs
        ([⟨[⟨⟨"", [⟨0, "i", "f", "x"⟩]⟩, "len"⟩], ⟨1, 2, 3⟩⟩].flatMap
          chunkToolDeltas) ∧
    convertToolCallsToParts decOk () ([] ++ (5, ⟨"id9", "", "zz"⟩) :: []) =
      convertToolCallsToParts decOk () ([] ++ []) :=
  ⟨(streaming_toolcall_aggregation 0 c2ds).2.1 ⟨0, "id0", "lookup", "ab"⟩
      [⟨0, "zz", "", "cd"⟩] rfl,
   (streaming_toolcall_aggregation 1 c2ds).1 rfl,
   (streaming_toolcall_aggregation 0 c2ds).2.2.1 none
      [⟨[⟨⟨"", [⟨0, "i", "f", "x"⟩]⟩, "len"⟩], ⟨1, 2, 3⟩⟩]
      ⟨"", [(0, ⟨"i", "f", "x"⟩)]⟩ rfl,
   (streaming_toolcall_aggregation 0 c2ds).2.2.2 Unit decOk () [] [] 5
      "id9" "zz"⟩

end Azureaifoundry
